import Mathlib

/-!
A shallow embedding of the core of the rlox bytecode compiler and virtual
machine (Rust sources under `src/`), together with theorems about the
embedded operations.

Modelling conventions:
- Rust `f64` numbers are modelled as exact rationals `ℚ`; every concrete
  computation appearing in a theorem below involves only values on which
  IEEE-754 double arithmetic is exact (small integers).
- The VM value stack (`stack: [Value; STACK_MAX]` plus `stack_top`) is
  modelled as a `List Value` whose element `i` is `stack[i]` and whose
  length is `stack_top`.
- Heap pointers (`*const ObjString` etc.) are modelled as indices into
  explicit allocation lists.
- Fallible operations return `Except`/`Option`; a Rust `panic` (e.g. an
  `unwrap` of `None`) is modelled as `Option.none`.
- Bit operations on bytes: `x >> 8` is `x >>> 8`, `x & 0xff` and `as u8`
  are `% 256`, `as u16` is `% 65536`, `(a << 8) | b` is `(a <<< 8) ||| b`.
-/

namespace RLox

/-- Lox runtime values (`value.rs` `Value`, including the `ObjClosure`
variant used by `vm.rs`).  Numbers are modelled as exact rationals in
place of IEEE-754 `f64`; object pointers are modelled as heap indices. -/
inductive Value where
  | nil
  | bool (b : Bool)
  | number (n : ℚ)
  | objString (p : Nat)
  | objFunction (p : Nat)
  | objNative (p : Nat)
  | objClosure (p : Nat)
deriving DecidableEq, Repr

/-- The stack array is initialised with `Number(0.0)`
(`VALUE_ARRAY_REPEAT_VALUE` in `vm.rs`), so out-of-range reads in the
model default to that value. -/
instance : Inhabited Value := ⟨Value.number 0⟩

/-- `value.rs` `Value::is_falsey`: nil and false are falsey. -/
def Value.isFalsey : Value → Bool
  | .nil => true
  | .bool false => true
  | _ => false

/-- `vm.rs` `push_stack`: write at `stack_top`, increment `stack_top`. -/
def pushStack (stack : List Value) (v : Value) : List Value :=
  stack ++ [v]

/-- `vm.rs` `pop_stack`: decrement `stack_top`, return `stack[stack_top]`.
Returns the popped value and the remaining stack. -/
def popStack (stack : List Value) : Value × List Value :=
  (stack.getD (stack.length - 1) default, stack.dropLast)

/-- `vm.rs` `peek(distance)`: `stack[stack_top - 1 - distance]`. -/
def peek (stack : List Value) (distance : Nat) : Value :=
  stack.getD (stack.length - 1 - distance) default

/-- The `Opcode::SetLocal` arm of `vm.rs` `run` (lines 261–265), with
`slot` the absolute stack index `frame.first_slot + operand` produced by
`read_slot`: the code pushes `stack[slot]` onto the stack and then stores
`peek(0)` — which after that push is the value just pushed — back into
`stack[slot]`. -/
def setLocalStep (stack : List Value) (slot : Nat) : List Value :=
  let stack1 := pushStack stack (stack.getD slot default)
  stack1.set slot (peek stack1 0)

/-- The behaviour the specification ascribes to `SetLocal`: overwrite
`stack[slot]` with the value on top of the stack, leaving the stack
height and every other slot unchanged. -/
def setLocalSpec (stack : List Value) (slot : Nat) : List Value :=
  stack.set slot (peek stack 0)

/-- `vm.rs` `InterpretResult`. -/
inductive InterpretResult where
  | ok
  | compileError
  | runtimeError
deriving DecidableEq, Repr

/-- `main.rs` `run_file`: exit code for each interpreter outcome
(`None` means the process does not exit early). -/
def runFileExitCode : InterpretResult → Option Nat
  | .ok => none
  | .compileError => some 65
  | .runtimeError => some 70

/-- `object_string.rs` `Display for ObjString`: the raw string contents
(no quotes). -/
def displayObjString (s : String) : String := s

/-- `object_function.rs` `Display for ObjFunction` (lines 46–53): a named
function displays as its name's `ObjString` display, an unnamed function
(the top-level script) displays as `<script>`. -/
def displayObjFunction : Option String → String
  | some name => displayObjString name
  | none => "<script>"

/-- `object_native.rs` `Display for ObjNative`. -/
def displayObjNative : String := "<native fn>"

/-- Rust's `Display for bool`, used by `value.rs` for `Value::Bool`. -/
def displayBool (b : Bool) : String := if b then "true" else "false"

/-- `value.rs` `Display for Value` (with `object_closure.rs` delegating a
closure's display to its function).  `numFmt` abstracts the host's `f64`
formatting; `strHeap` gives each `ObjString` pointer its contents;
`fnNames` gives each `ObjFunction` pointer its optional name; and
`closureFns` gives each `ObjClosure` pointer its function pointer. -/
def displayValue (numFmt : ℚ → String) (strHeap : List String)
    (fnNames : List (Option String)) (closureFns : List Nat) : Value → String
  | .nil => "nil"
  | .bool b => displayBool b
  | .number n => numFmt n
  | .objString p => displayObjString (strHeap.getD p "")
  | .objFunction p => displayObjFunction (fnNames.getD p none)
  | .objNative _ => displayObjNative
  | .objClosure p => displayObjFunction (fnNames.getD (closureFns.getD p 0) none)

/-- The `Opcode::Print` arm of `vm.rs` `run` (lines 222–225): pop the top
value and print its display; returns the printed string and the remaining
stack. -/
def execPrint (stack : List Value) (disp : Value → String) : String × List Value :=
  let (value, rest) := popStack stack
  (disp value, rest)

/-- Execution state for straight-line instruction sequences: the value
stack, the `ObjString` heap (contents by pointer, in allocation order),
and the values printed so far (`Print` output, with the host's value
formatting abstracted away). -/
structure ExecState where
  stack : List Value
  strings : List String
  output : List Value
deriving DecidableEq, Repr

/-- Straight-line instructions of `chunk.rs` `Opcode` used by expression
and print statements.  `const v` stands for `Opcode::Constant c` with the
constant-pool entry `constants[c] = v` inlined. -/
inductive Instr where
  | const (v : Value)
  | negate
  | add
  | subtract
  | multiply
  | divide
  | print
deriving DecidableEq, Repr

/-- The `binary_op!` macro of `vm.rs` (lines 77–91): if the two topmost
values are not both numbers, raise "Operands must be numbers."; otherwise
pop `b`, pop `a` and push `f a b`. -/
def binaryOp (st : ExecState) (f : ℚ → ℚ → Value) : Except String ExecState :=
  match peek st.stack 0, peek st.stack 1 with
  | .number _, .number _ =>
    let (bv, s1) := popStack st.stack
    let (av, s2) := popStack s1
    match bv, av with
    | .number b, .number a => .ok { st with stack := pushStack s2 (f a b) }
    | _, _ => .error "unreachable"
  | _, _ => .error "Operands must be numbers."

/-- `vm.rs` `concatenate` (lines 473–490): pop `b` then `a`; both must be
strings (the `Add` arm only calls this when they are); allocate a new
heap string holding `a ++ b` and push a pointer to it. -/
def concatenate (st : ExecState) : Except String ExecState :=
  let (bv, s1) := popStack st.stack
  let (av, s2) := popStack s1
  match av, bv with
  | .objString p1, .objString p2 =>
    let str1 := st.strings.getD p1 ""
    let str2 := st.strings.getD p2 ""
    .ok { st with
          stack := pushStack s2 (.objString st.strings.length)
          strings := st.strings ++ [str1 ++ str2] }
  | _, _ => .error "Concatenation operands must be strings."

/-- One step of `vm.rs` `run` for the straight-line instructions above.
`Negate` (lines 152–163) is transcribed as the source has it: it peeks at
the top value and pushes its negation without popping the operand.
`Add` (lines 184–195) concatenates when both topmost values are strings
and otherwise falls into `binary_op!` with `+`. -/
def execInstr (st : ExecState) : Instr → Except String ExecState
  | .const v => .ok { st with stack := pushStack st.stack v }
  | .negate =>
    match peek st.stack 0 with
    | .number n => .ok { st with stack := pushStack st.stack (.number (-n)) }
    | _ => .error "Operand must be a number."
  | .add =>
    match peek st.stack 0, peek st.stack 1 with
    | .objString _, .objString _ => concatenate st
    | _, _ => binaryOp st (fun a b => .number (a + b))
  | .subtract => binaryOp st (fun a b => .number (a - b))
  | .multiply => binaryOp st (fun a b => .number (a * b))
  | .divide => binaryOp st (fun a b => .number (a / b))
  | .print =>
    let (value, rest) := popStack st.stack
    .ok { st with stack := rest, output := st.output ++ [value] }

/-- Run a sequence of straight-line instructions from left to right,
stopping at the first runtime error, as the `run` loop does. -/
def runInstrs (prog : List Instr) (st : ExecState) : Except String ExecState :=
  prog.foldlM execInstr st

/-- Outcome of `run` as seen by `interpret`: a runtime error inside the
instruction loop makes `interpret` return `InterpretResult::RuntimeError`,
and otherwise execution proceeds normally. -/
def interpretOutcome : Except String ExecState → InterpretResult
  | .ok _ => .ok
  | .error _ => .runtimeError

/-- `compiler.rs` `Precedence` (the `#[repr(u8)]` enum, lines 71–85). -/
inductive Prec where
  | noPrec
  | assignment
  | orPrec
  | andPrec
  | equality
  | comparison
  | term
  | factor
  | unary
  | callPrec
  | primary
deriving DecidableEq, Repr

/-- The `u8` discriminant used by the derived `PartialOrd`/`Ord` of
`Precedence`. -/
def Prec.val : Prec → Nat
  | .noPrec => 0
  | .assignment => 1
  | .orPrec => 2
  | .andPrec => 3
  | .equality => 4
  | .comparison => 5
  | .term => 6
  | .factor => 7
  | .unary => 8
  | .callPrec => 9
  | .primary => 10

/-- `compiler.rs` `Precedence::next_level`. -/
def Prec.nextLevel : Prec → Prec
  | .noPrec => .assignment
  | .assignment => .orPrec
  | .orPrec => .andPrec
  | .andPrec => .equality
  | .equality => .comparison
  | .comparison => .term
  | .term => .factor
  | .factor => .unary
  | .unary => .callPrec
  | .callPrec => .primary
  | .primary => .primary

/-- Tokens of the arithmetic-expression fragment: number literals, the
four binary operators, unary minus, parentheses, and end of input. -/
inductive ATok where
  | num (n : ℚ)
  | plus
  | minus
  | star
  | slash
  | lparen
  | rparen
  | eofTok
deriving DecidableEq, Repr

/-- `compiler.rs` `TokenType::precedence` restricted to the arithmetic
tokens: `-`/`+` are Term, `/`/`*` are Factor, `(` is Call, everything
else here is None. -/
def ATok.precedence : ATok → Prec
  | .minus => .term
  | .plus => .term
  | .slash => .factor
  | .star => .factor
  | .lparen => .callPrec
  | _ => .noPrec

/-- Parser state for the arithmetic fragment of `compiler.rs`: the
remaining tokens (the head is the `current` token, `eofTok` once the list
is empty), the `previous` token, the `had_error` flag, and the
instructions emitted so far. -/
structure AParser where
  tokens : List ATok
  prev : ATok
  hadError : Bool
  code : List Instr
deriving DecidableEq, Repr

/-- The parser's `current` token. -/
def AParser.current (s : AParser) : ATok := s.tokens.headD .eofTok

/-- `compiler.rs` `advance` (the scanner never errors on these tokens):
`previous := current`, then fetch the next token. -/
def AParser.advance (s : AParser) : AParser :=
  { s with prev := s.current, tokens := s.tokens.tail }

/-- `compiler.rs` `emit_byte` for a straight-line instruction. -/
def AParser.emit (s : AParser) (i : Instr) : AParser :=
  { s with code := s.code ++ [i] }

/-- `compiler.rs` `consume`: advance past the expected token or report an
error (recorded here by setting `had_error`). -/
def AParser.consume (s : AParser) (t : ATok) : AParser :=
  if s.current = t then s.advance else { s with hadError := true }

/-- `compiler.rs` `parse_precedence` (lines 674–705) specialised to the
arithmetic fragment.  The Bool selects between the body of
`parse_precedence` (`false`) and its inner
`while precedence <= current.precedence()` infix loop (`true`); a single
function keeps the recursion structural in `fuel`, which bounds the
depth and is chosen large enough in every use below.
Prefix rules (`TokenType::prefix_parser_type`): `(` is Grouping, `-` is
Unary, a number literal is Number; anything else reports "Expect
expression with prefix parser.".  Infix rules: `+ - * /` are Binary,
which parses the right operand one level above the operator's precedence
and emits its opcode (the fragment's inputs never reach the `(` Call
infix rule, treated as an error here).  The fragment has no `=` token,
so the trailing invalid-assignment-target check of `parse_precedence`
cannot fire and is omitted. -/
def parseA : Nat → Bool → Prec → AParser → AParser
  | 0, _, _, s => { s with hadError := true }
  | fuel + 1, false, prec, s =>
    let s := s.advance
    let s :=
      match s.prev with
      | .lparen =>
        -- `grouping`: expression, then consume ')'
        (parseA fuel false .assignment s).consume .rparen
      | .minus =>
        -- `unary`: parse the operand at Unary precedence, emit Negate
        (parseA fuel false .unary s).emit .negate
      | .num n =>
        -- `number`: emit the constant
        s.emit (.const (.number n))
      | _ => { s with hadError := true }
    parseA fuel true prec s
  | fuel + 1, true, prec, s =>
    if prec.val ≤ s.current.precedence.val then
      let s := s.advance
      match s.prev with
      | .plus => parseA fuel true prec
          ((parseA fuel false (ATok.plus.precedence.nextLevel) s).emit .add)
      | .minus => parseA fuel true prec
          ((parseA fuel false (ATok.minus.precedence.nextLevel) s).emit .subtract)
      | .star => parseA fuel true prec
          ((parseA fuel false (ATok.star.precedence.nextLevel) s).emit .multiply)
      | .slash => parseA fuel true prec
          ((parseA fuel false (ATok.slash.precedence.nextLevel) s).emit .divide)
      | _ => { s with hadError := true }
    else s

/-- `compiler.rs` `expression`: parse at Assignment precedence. -/
def expressionA (fuel : Nat) (s : AParser) : AParser :=
  parseA fuel false .assignment s

/-- Compile a `print <expr>;` statement from the given expression tokens
(`compiler.rs` `print_statement`): compile the expression, then emit
`Print`.  Returns the emitted code and the `had_error` flag. -/
def compilePrintStmt (tokens : List ATok) : List Instr × Bool :=
  let s0 : AParser := { tokens := tokens, prev := .eofTok, hadError := false, code := [] }
  let s := expressionA (tokens.length + 1) s0
  (s.code ++ [.print], s.hadError)

/-- Arithmetic expressions as the specification reads them: the tree
obtained from the source text by standard precedence (`*`, `/` over `+`,
`-`) and left associativity. -/
inductive AExpr where
  | num (n : ℚ)
  | neg (e : AExpr)
  | add (a b : AExpr)
  | sub (a b : AExpr)
  | mul (a b : AExpr)
  | div (a b : AExpr)
deriving DecidableEq, Repr

/-- The specification's evaluation of an arithmetic expression.  (On the
concrete inputs used below, every operation is exact in IEEE-754 double
arithmetic, so ℚ evaluation agrees with the claimed `f64` result.) -/
def evalA : AExpr → ℚ
  | .num n => n
  | .neg e => -(evalA e)
  | .add a b => evalA a + evalA b
  | .sub a b => evalA a - evalA b
  | .mul a b => evalA a * evalA b
  | .div a b => evalA a / evalA b

/-- `vm.rs` `FRAMES_MAX`. -/
def framesMax : Nat := 64

/-- `vm.rs` `CallFrame`: the running closure (a heap pointer), its
instruction pointer, and the absolute stack index of its first slot. -/
structure CallFrame where
  closure : Nat
  ip : Nat
  firstSlot : Nat
deriving DecidableEq, Repr

/-- The part of the `VM` state that `call_value` touches: the value
stack, the call-frame stack, the arity of each closure's function
(`(*(*closure).function).arity`, indexed by closure pointer), and the
millisecond clock value the host would return for the `Clock` native. -/
structure CallVM where
  stack : List Value
  frames : List CallFrame
  closureArity : List Nat
  clockValue : ℚ
deriving DecidableEq, Repr

/-- `vm.rs` `call` (lines 506–523): arity mismatch is a runtime error;
a full frame stack is the "Stack overflow." runtime error; otherwise push
a new frame with `first_slot = stack_top - arg_count - 1` and `ip = 0`. -/
def call (vm : CallVM) (closure : Nat) (argCount : Nat) : Except String CallVM :=
  let arity := vm.closureArity.getD closure 0
  if argCount ≠ arity then
    .error s!"Expected {arity} arguments but got {argCount}"
  else if vm.frames.length = framesMax then
    .error "Stack overflow."
  else
    .ok { vm with
          frames := vm.frames ++
            [{ closure := closure, firstSlot := vm.stack.length - argCount - 1, ip := 0 }] }

/-- `vm.rs` `call_native` (lines 525–540): the only native is `Clock`,
whose result is the host clock as a number; `stack_top -= arg_count + 1`
then push the result. -/
def callNative (vm : CallVM) (argCount : Nat) : CallVM :=
  let result := Value.number vm.clockValue
  { vm with stack := pushStack (vm.stack.take (vm.stack.length - (argCount + 1))) result }

/-- `vm.rs` `call_value` (lines 492–504): dispatch on the callee.  The
`false` return of the Rust function makes the `Call` arm of `run` return
`InterpretResult::RuntimeError`; this is modelled by the `Except` error. -/
def callValue (vm : CallVM) (callee : Value) (argCount : Nat) : Except String CallVM :=
  match callee with
  | .objNative _ => .ok (callNative vm argCount)
  | .objClosure p => call vm p argCount
  | _ => .error "Can only call functions and classes."

/-- The VM's open-upvalue list, modelled as the list of nodes reached
from `open_upvalues` through `next_upvalue` links: each node is a pair
`(pointer, location)`.  `nextPtr` below plays the role of a fresh heap
address for `heap_alloc`. -/
abbrev OpenUpvalues := List (Nat × Nat)

/-- `vm.rs` `capture_upvalue` (lines 352–379) as a walk down the list:
skip nodes while their `location` is greater than `loc`; if the walk
stops at a node whose `location` equals `loc`, return that node's
pointer and leave the list unchanged; otherwise splice a fresh node
`(newPtr, loc)` between the predecessor and the rest.  Returns the
captured pointer, the updated list, and whether a node was allocated. -/
def captureWalk : OpenUpvalues → Nat → Nat → Nat × OpenUpvalues × Bool
  | [], loc, newPtr => (newPtr, [(newPtr, loc)], true)
  | u :: rest, loc, newPtr =>
    if loc < u.2 then
      ((captureWalk rest loc newPtr).1,
       u :: (captureWalk rest loc newPtr).2.1,
       (captureWalk rest loc newPtr).2.2)
    else if u.2 = loc then
      (u.1, u :: rest, false)
    else
      (newPtr, (newPtr, loc) :: u :: rest, true)

/-- `vm.rs` `close_upvalues` (lines 381–392), restricted to its effect on
the open-upvalue list: pop nodes from the head while their `location` is
at least `last_location` (each popped node's `closed` cell receives the
stack value at its location, which does not affect the list itself). -/
def closeUpvalues : OpenUpvalues → Nat → OpenUpvalues
  | [], _ => []
  | u :: rest, lastLocation =>
    if u.2 < lastLocation then u :: rest
    else closeUpvalues rest lastLocation

/-- The open-upvalue list invariant: locations strictly decrease from the
head (top of stack first). -/
def SortedDesc (l : OpenUpvalues) : Prop :=
  List.Pairwise (fun a b => b.2 < a.2) l

instance (l : OpenUpvalues) : Decidable (SortedDesc l) := by
  unfold SortedDesc
  infer_instance

/-- The garbage collector's view of the heap: the intrusive object list
in allocation order, keeping each object's `is_marked` bit (object
pointers in `Value`s index into this list). -/
abbrev ObjectList := List Bool

/-- `vm.rs` `mark_value` (lines 593–623): primitive values are skipped;
every object variant has its `is_marked` bit set (no outgoing references
are traced). -/
def markValue (objects : ObjectList) : Value → ObjectList
  | .nil | .bool _ | .number _ => objects
  | .objString p | .objFunction p | .objNative p | .objClosure p => objects.set p true

/-- `vm.rs` `mark_roots` (lines 564–591): mark every value on the stack
below `stack_top`, every global, every call frame's closure, and every
open upvalue. -/
def markRoots (objects : ObjectList) (stack : List Value) (globals : List Value)
    (frameClosures : List Nat) (openUpvaluePtrs : List Nat) : ObjectList :=
  let o1 := stack.foldl markValue objects
  let o2 := globals.foldl markValue o1
  let o3 := frameClosures.foldl (fun o p => markValue o (.objClosure p)) o2
  openUpvaluePtrs.foldl (fun o p => o.set p true) o3

/-- `vm.rs` `collect_garbage` (lines 552–562), run before every
allocation under stress mode: apart from debug logging it only calls
`mark_roots` — there is no trace phase, no sweep, no unlinking, and no
clearing of mark bits. -/
def collectGarbage (objects : ObjectList) (stack : List Value) (globals : List Value)
    (frameClosures : List Nat) (openUpvaluePtrs : List Nat) : ObjectList :=
  markRoots objects stack globals frameClosures openUpvaluePtrs

/-- `memory.rs` `GarbageCollector::collect_garbage` (lines 58–66): the
body only prints debug banners; the object list is untouched. -/
def collectGarbageAllocator (objects : ObjectList) : ObjectList :=
  objects

/-- `chunk.rs` discriminant of `Opcode::JumpIfFalse`. -/
def opJumpIfFalse : Nat := 21

/-- `chunk.rs` discriminant of `Opcode::Jump`. -/
def opJump : Nat := 22

/-- `chunk.rs` discriminant of `Opcode::Loop`. -/
def opLoop : Nat := 23

/-- `compiler.rs` `emit_jump` (lines 452–457): emit the opcode and two
`0xff` placeholder bytes; return the position of the placeholder
(`code.len() - 2` after the three writes). -/
def emitJump (code : List Nat) (opcode : Nat) : List Nat × Nat :=
  let code1 := code ++ [opcode, 0xff, 0xff]
  (code1, code1.length - 2)

/-- `compiler.rs` `patch_jump` (lines 459–473): the operand is
`code.len() - offset - 2`; if it does not fit in a `u16` report "Too much
code to jump over." and write a zero operand; the high byte goes at
`offset`, the low byte at `offset + 1`.  The Bool is the error flag. -/
def patchJump (code : List Nat) (offset : Nat) : List Nat × Bool :=
  let jump := code.length - offset - 2
  if jump ≤ 65535 then
    (((code.set offset ((jump >>> 8) % 256)).set (offset + 1) (jump % 256)), false)
  else
    (((code.set offset 0).set (offset + 1) 0), true)

/-- `compiler.rs` `emit_loop` (lines 441–450): emit the `Loop` opcode;
the operand is `code.len() - loop_start + 2` measured after that byte;
offsets beyond `u16::MAX` report "Loop body too large." (the operand is
still emitted, truncated to 16 bits, high byte first). -/
def emitLoop (code : List Nat) (loopStart : Nat) : List Nat × Bool :=
  let code1 := code ++ [opLoop]
  let offset := code1.length - loopStart + 2
  let hadError := 65535 < offset
  (code1 ++ [((offset % 65536) >>> 8) % 256, offset % 256], hadError)

/-- `vm.rs` `CallFrame::read_byte`: the byte at `ip`, and `ip + 1`. -/
def readByte (code : List Nat) (ip : Nat) : Nat × Nat :=
  (code.getD ip 0, ip + 1)

/-- `vm.rs` `CallFrame::read_short` (lines 53–55): two `read_byte`s,
combined big-endian (`(b1 as u16) << 8 | b2`). -/
def readShort (code : List Nat) (ip : Nat) : Nat × Nat :=
  let (b1, ip1) := readByte code ip
  let (b2, ip2) := readByte code ip1
  ((b1 <<< 8) ||| b2, ip2)

/-- The `Opcode::Jump` arm of `vm.rs` `run` (lines 273–276), starting
from the `ip` just after the opcode byte: read the 16-bit operand and add
it to `ip`.  Returns the new `ip`. -/
def execJump (code : List Nat) (ip : Nat) : Nat :=
  let (offset, ip2) := readShort code ip
  ip2 + offset

/-- The `Opcode::JumpIfFalse` arm of `vm.rs` `run` (lines 266–272): read
the operand, then add it to `ip` only when the top of the stack is
falsey (the condition value is not popped). -/
def execJumpIfFalse (code : List Nat) (ip : Nat) (top : Value) : Nat :=
  let (offset, ip2) := readShort code ip
  if top.isFalsey then ip2 + offset else ip2

/-- The `Opcode::Loop` arm of `vm.rs` `run` (lines 277–280): read the
operand and subtract it from `ip`. -/
def execLoop (code : List Nat) (ip : Nat) : Nat :=
  let (offset, ip2) := readShort code ip
  ip2 - offset

/-- `scanner.rs` `Scanner`: the source (as a character list; the claim's
inputs are ASCII, where the byte length used by `is_at_end` equals the
character count used by `chars().nth`), the `start` and `current`
indices, and the current line. -/
structure Scanner where
  source : List Char
  start : Nat
  current : Nat
  line : Nat
deriving DecidableEq, Repr

/-- `scanner.rs` `TokenType` (keyword variants written with a `kw`
prefix). -/
inductive TokType where
  | leftParen | rightParen | leftBrace | rightBrace
  | comma | dot | minus | plus | semicolon | slash | star
  | bang | bangEqual | equal | equalEqual
  | greater | greaterEqual | less | lessEqual
  | identifier | stringLit | number
  | kwAnd | kwClass | kwElse | kwFalse | kwFor | kwFun | kwIf | kwNil
  | kwOr | kwPrint | kwReturn | kwSuper | kwThis | kwTrue | kwVar | kwWhile
  | eof
deriving DecidableEq, Repr

/-- `scanner.rs` `ScanError`. -/
inductive ScanErr where
  | unexpectedCharacter
  | unterminatedString
deriving DecidableEq, Repr

/-- `scanner.rs` `Token`: type, lexeme slice `source[start..current]`,
line. -/
structure Token where
  tokType : TokType
  lexeme : List Char
  line : Nat
deriving DecidableEq, Repr

/-- `scanner.rs` `is_at_end`: `current >= source.len()`. -/
def Scanner.isAtEnd (s : Scanner) : Bool :=
  decide (s.source.length ≤ s.current)

/-- `scanner.rs` `peek` (lines 253–255): `chars().nth(current).unwrap()`.
The `unwrap` of a missing character is a panic, modelled as `none`. -/
def Scanner.peekOpt (s : Scanner) : Option Char :=
  s.source.get? s.current

/-- `scanner.rs` `peek_next`: `'\0'` when at the end, otherwise
`chars().nth(current + 1).unwrap()` (which panics — `none` — when
`current + 1` is exactly the source length). -/
def Scanner.peekNext (s : Scanner) : Option Char :=
  if s.isAtEnd then some '\x00'
  else s.source.get? (s.current + 1)

/-- `scanner.rs` `advance`: step `current` and return the character just
passed (`unwrap` panic as `none`). -/
def Scanner.advanceOpt (s : Scanner) : Option (Char × Scanner) :=
  match s.source.get? s.current with
  | none => none
  | some c => some (c, { s with current := s.current + 1 })

/-- `scanner.rs` `match_char`: false at the end or on a mismatch,
otherwise consume the expected character. -/
def Scanner.matchChar (s : Scanner) (expected : Char) : Option (Bool × Scanner) :=
  if s.isAtEnd then some (false, s)
  else
    match s.source.get? s.current with
    | none => none
    | some c =>
      if c ≠ expected then some (false, s)
      else some (true, { s with current := s.current + 1 })

/-- `scanner.rs` `is_alpha` (ASCII reading of `char::is_alphabetic`). -/
def isAlphaChar (c : Char) : Bool := c.isAlpha || c = '_'

/-- `scanner.rs` `is_digit`. -/
def isDigitChar (c : Char) : Bool := c.isDigit

/-- The slice `source[a..b]` as a character list. -/
def Scanner.slice (s : Scanner) (a b : Nat) : List Char :=
  (s.source.drop a).take (b - a)

/-- `scanner.rs` `make_token`: a token over `source[start..current]`. -/
def Scanner.makeToken (s : Scanner) (t : TokType) : Token :=
  { tokType := t, lexeme := s.slice s.start s.current, line := s.line }

/-- `scanner.rs` `skip_whitespace`, with the inner `//`-comment loop
folded into the same recursion via the `inComment` flag (the comment
loop's terminating newline is handled directly, exactly as the next
outer-loop iteration would).  The loop peeks (`unwrap`, so `none` at a
missing character) and advances past spaces, newlines and comments.
Each step either advances `current` or enters a comment, so the fuel
chosen by `skipWs` below can never run out: the zero-fuel branch is
unreachable. -/
def skipWsLoop : Nat → Scanner → Bool → Option Scanner
  | 0, _, _ => none
  | fuel + 1, s, inComment =>
    if inComment then
      -- `while self.peek() != '\n' && !self.is_at_end()` — `peek` first,
      -- so running off the end panics
      match s.source.get? s.current with
      | none => none
      | some c =>
        if c = '\n' then
          -- inner loop exits; the next outer iteration consumes the '\n'
          skipWsLoop fuel { s with line := s.line + 1, current := s.current + 1 } false
        else
          skipWsLoop fuel { s with current := s.current + 1 } true
    else
      if s.isAtEnd then some s
      else
        match s.source.get? s.current with
        | none => none
        | some c =>
          if c = ' ' ∨ c = '\r' ∨ c = '\t' then
            skipWsLoop fuel { s with current := s.current + 1 } false
          else if c = '\n' then
            skipWsLoop fuel { s with line := s.line + 1, current := s.current + 1 } false
          else if c = '/' then
            match s.peekNext with
            | none => none
            | some c2 =>
              if c2 = '/' then skipWsLoop fuel s true
              else some s
          else some s

/-- `scanner.rs` `skip_whitespace` entry point: the fuel bounds twice the
number of remaining characters plus the comment-entry steps, which the
loop can never exceed. -/
def skipWs (s : Scanner) : Option Scanner :=
  skipWsLoop (2 * s.source.length + 2) s false

/-- The identifier loop of `scanner.rs` `identifier` (lines 170–175):
advance while `peek` is alphanumeric.  Each `peek` is an `unwrap`, so
reaching the end of the source mid-identifier panics (`none`).  The loop
advances on every step, so with the fuel chosen by `identLoop` the
zero-fuel branch is unreachable (the peek past the end returns `none`
first). -/
def identLoopF : Nat → Scanner → Option Scanner
  | 0, _ => none
  | fuel + 1, s =>
    match s.source.get? s.current with
    | none => none
    | some c =>
      if isAlphaChar c || isDigitChar c then
        identLoopF fuel { s with current := s.current + 1 }
      else some s

/-- The identifier loop with its sufficient fuel. -/
def identLoop (s : Scanner) : Option Scanner :=
  identLoopF (s.source.length + 1 - s.current) s

/-- The digit loop of `scanner.rs` `number` (the `while is_digit(peek)`
loops): same structure and panic behaviour as the identifier loop. -/
def digitLoopF : Nat → Scanner → Option Scanner
  | 0, _ => none
  | fuel + 1, s =>
    match s.source.get? s.current with
    | none => none
    | some c =>
      if isDigitChar c then
        digitLoopF fuel { s with current := s.current + 1 }
      else some s

/-- The digit loop with its sufficient fuel. -/
def digitLoop (s : Scanner) : Option Scanner :=
  digitLoopF (s.source.length + 1 - s.current) s

/-- The body loop of `scanner.rs` `string` (lines 154–160): advance until
the closing quote, counting newlines; `peek` is evaluated before the
`is_at_end` test, so an unterminated string runs the `unwrap` off the end
of the source (`none`).  The loop advances on every step, so the
zero-fuel branch of the fuelled version is unreachable. -/
def stringLoopF : Nat → Scanner → Option Scanner
  | 0, _ => none
  | fuel + 1, s =>
    match s.source.get? s.current with
    | none => none
    | some c =>
      if c ≠ '"' ∧ ¬ s.isAtEnd then
        stringLoopF fuel { s with
                           line := if c = '\n' then s.line + 1 else s.line
                           current := s.current + 1 }
      else some s

/-- The string-body loop with its sufficient fuel. -/
def stringLoop (s : Scanner) : Option Scanner :=
  stringLoopF (s.source.length + 1 - s.current) s

/-- `scanner.rs` `check_keyword`. -/
def Scanner.checkKeyword (s : Scanner) (kstart klength : Nat) (rest : List Char)
    (t : TokType) : TokType :=
  if s.current - s.start = kstart + klength ∧
      s.slice (s.start + kstart) s.current = rest then t
  else .identifier

/-- `scanner.rs` `identifier_type`: the hand-coded keyword trie (each
`chars().nth(..).unwrap()` is a potential panic, `none`). -/
def Scanner.identifierType (s : Scanner) : Option TokType :=
  match s.source.get? s.start with
  | none => none
  | some c =>
    match c with
    | 'a' => some (s.checkKeyword 1 2 ['n', 'd'] .kwAnd)
    | 'c' => some (s.checkKeyword 1 4 ['l', 'a', 's', 's'] .kwClass)
    | 'e' => some (s.checkKeyword 1 3 ['l', 's', 'e'] .kwElse)
    | 'i' => some (s.checkKeyword 1 1 ['f'] .kwIf)
    | 'n' => some (s.checkKeyword 1 2 ['i', 'l'] .kwNil)
    | 'o' => some (s.checkKeyword 1 1 ['r'] .kwOr)
    | 'p' => some (s.checkKeyword 1 4 ['r', 'i', 'n', 't'] .kwPrint)
    | 'r' => some (s.checkKeyword 1 5 ['e', 't', 'u', 'r', 'n'] .kwReturn)
    | 's' => some (s.checkKeyword 1 4 ['u', 'p', 'e', 'r'] .kwSuper)
    | 'v' => some (s.checkKeyword 1 2 ['a', 'r'] .kwVar)
    | 'w' => some (s.checkKeyword 1 4 ['h', 'i', 'l', 'e'] .kwWhile)
    | 'f' =>
      if 1 < s.current - s.start then
        match s.source.get? (s.start + 1) with
        | none => none
        | some c2 =>
          match c2 with
          | 'a' => some (s.checkKeyword 2 3 ['l', 's', 'e'] .kwFalse)
          | 'o' => some (s.checkKeyword 2 1 ['r'] .kwFor)
          | 'u' => some (s.checkKeyword 2 1 ['n'] .kwFun)
          | _ => some .identifier
      else some .identifier
    | 't' =>
      if 1 < s.current - s.start then
        match s.source.get? (s.start + 1) with
        | none => none
        | some c2 =>
          match c2 with
          | 'h' => some (s.checkKeyword 2 2 ['i', 's'] .kwThis)
          | 'r' => some (s.checkKeyword 2 2 ['u', 'e'] .kwTrue)
          | _ => some .identifier
      else some .identifier
    | _ => some .identifier

/-- `scanner.rs` `identifier`: run the loop, then classify. -/
def identifierScan (s : Scanner) : Option Token := do
  let s1 ← identLoop s
  let t ← s1.identifierType
  some (s1.makeToken t)

/-- `scanner.rs` `number`: digit loop, optional fraction (its `peek` and
`peek_next` are further `unwrap`s), digit loop again. -/
def numberScan (s : Scanner) : Option Token := do
  let s1 ← digitLoop s
  match s1.source.get? s1.current with
  | none => none
  | some c =>
    if c = '.' then
      match s1.peekNext with
      | none => none
      | some c2 =>
        if isDigitChar c2 then do
          let (_, s2) ← s1.advanceOpt
          let s3 ← digitLoop s2
          some (s3.makeToken .number)
        else some (s1.makeToken .number)
    else some (s1.makeToken .number)

/-- `scanner.rs` `string`: body loop, then the unterminated-string check
(dead in practice: `peek` panics first at the end of input), then consume
the closing quote. -/
def stringScan (s : Scanner) : Option (Except ScanErr Token × Scanner) := do
  let s1 ← stringLoop s
  if s1.isAtEnd then
    some (.error .unterminatedString, s1)
  else do
    let (_, s2) ← s1.advanceOpt
    some (.ok (s2.makeToken .stringLit), s2)

/-- `scanner.rs` `scan_token` (lines 90–152): skip whitespace, reset
`start`, dispatch on the next character.  Any `unwrap` of a missing
character along the way is a panic, modelled as `none`. -/
def scanToken (s : Scanner) : Option (Except ScanErr Token × Scanner) := do
  let s ← skipWs s
  let s := { s with start := s.current }
  if s.isAtEnd then
    some (.ok (s.makeToken .eof), s)
  else do
    let (c, s) ← s.advanceOpt
    if isAlphaChar c then do
      let s1 ← identLoop s
      let t ← s1.identifierType
      some (.ok (s1.makeToken t), s1)
    else if isDigitChar c then do
      let s1 ← digitLoop s
      match s1.source.get? s1.current with
      | none => none
      | some c1 =>
        if c1 = '.' then
          match s1.peekNext with
          | none => none
          | some c2 =>
            if isDigitChar c2 then do
              let (_, s2) ← s1.advanceOpt
              let s3 ← digitLoop s2
              some (.ok (s3.makeToken .number), s3)
            else some (.ok (s1.makeToken .number), s1)
        else some (.ok (s1.makeToken .number), s1)
    else
      match c with
      | '(' => some (.ok (s.makeToken .leftParen), s)
      | ')' => some (.ok (s.makeToken .rightParen), s)
      | '{' => some (.ok (s.makeToken .leftBrace), s)
      | '}' => some (.ok (s.makeToken .rightBrace), s)
      | ';' => some (.ok (s.makeToken .semicolon), s)
      | ',' => some (.ok (s.makeToken .comma), s)
      | '.' => some (.ok (s.makeToken .dot), s)
      | '-' => some (.ok (s.makeToken .minus), s)
      | '+' => some (.ok (s.makeToken .plus), s)
      | '/' => some (.ok (s.makeToken .slash), s)
      | '*' => some (.ok (s.makeToken .star), s)
      | '!' => do
        let (m, s1) ← s.matchChar '='
        some (.ok (s1.makeToken (if m then .bangEqual else .bang)), s1)
      | '=' => do
        let (m, s1) ← s.matchChar '='
        some (.ok (s1.makeToken (if m then .equalEqual else .equal)), s1)
      | '<' => do
        let (m, s1) ← s.matchChar '='
        some (.ok (s1.makeToken (if m then .lessEqual else .less)), s1)
      | '>' => do
        let (m, s1) ← s.matchChar '='
        some (.ok (s1.makeToken (if m then .greaterEqual else .greater)), s1)
      | '"' => stringScan s
      | _ => some (.error .unexpectedCharacter, s)

/-- `scanner.rs` `Scanner::new`. -/
def Scanner.new (source : List Char) : Scanner :=
  { source := source, start := 0, current := 0, line := 1 }

/-- Tokens of the statement fragment used to exercise the compiler's
assignment-target handling: identifiers, `*`, `=`, `;`, end of file. -/
inductive CTok where
  | ident (name : String)
  | star
  | equal
  | semicolon
  | eofTok
deriving DecidableEq, Repr

/-- `compiler.rs` `TokenType::precedence` restricted to these tokens:
`*` is Factor, identifiers, `=`, `;` and EOF are None. -/
def CTok.precedence : CTok → Prec
  | .star => .factor
  | _ => .noPrec

/-- `chunk.rs` discriminants for the opcodes this fragment emits. -/
def opMultiply : Nat := 8

/-- `chunk.rs` discriminant of `Opcode::Pop`. -/
def opPop : Nat := 15

/-- `chunk.rs` discriminant of `Opcode::GetGlobal`. -/
def opGetGlobal : Nat := 17

/-- `chunk.rs` discriminant of `Opcode::SetGlobal`. -/
def opSetGlobal : Nat := 18

/-- Compiler state for the fragment (`compiler.rs` `Compiler` at
top level, where `scope_depth = 0` and the locals array never matches, so
every identifier resolves to a global): the `current`/`previous` tokens,
the remaining token stream, the `had_error`/`panic_mode` flags, the error
messages reported so far, the emitted code bytes and the constant pool
(holding the interned identifier names). -/
structure CParser where
  current : CTok
  prev : CTok
  rest : List CTok
  hadError : Bool
  panicMode : Bool
  errors : List String
  code : List Nat
  constants : List String
deriving DecidableEq, Repr

/-- `compiler.rs` `advance` (the scanner yields no errors on these
tokens). -/
def CParser.advance (s : CParser) : CParser :=
  { s with prev := s.current
           current := s.rest.headD .eofTok
           rest := s.rest.tail }

/-- `compiler.rs` `error_at`: suppressed in panic mode; otherwise record
the message and set `had_error` and `panic_mode`. -/
def CParser.errorAt (s : CParser) (message : String) : CParser :=
  if s.panicMode then s
  else { s with hadError := true, panicMode := true, errors := s.errors ++ [message] }

/-- `compiler.rs` `match_token`: consume the token if it is next. -/
def CParser.matchToken (s : CParser) (t : CTok) : Bool × CParser :=
  if s.current = t then (true, s.advance) else (false, s)

/-- `compiler.rs` `consume`. -/
def CParser.consume (s : CParser) (t : CTok) (message : String) : CParser :=
  if s.current = t then s.advance else s.errorAt message

/-- `compiler.rs` `emit_byte`. -/
def CParser.emitByte (s : CParser) (b : Nat) : CParser :=
  { s with code := s.code ++ [b] }

/-- `compiler.rs` `emit_bytes`. -/
def CParser.emitBytes (s : CParser) (b1 b2 : Nat) : CParser :=
  { s with code := s.code ++ [b1, b2] }

/-- `compiler.rs` `make_constant` + `identifier_constant`: intern the
name in the constant pool and return its index. -/
def CParser.identifierConstant (s : CParser) (name : String) : Nat × CParser :=
  (s.constants.length, { s with constants := s.constants ++ [name] })

/-- `compiler.rs` `parse_precedence` (lines 674–705) over the fragment,
with `named_variable` (lines 559–582) inlined as the Variable prefix
rule.  The Bool selects between the body of `parse_precedence` (`false`)
and its inner infix `while` loop (`true`); a single function keeps the
recursion structural in `fuel`, which is chosen large enough in every
use below.
At top level `resolve_local` returns `-1`, so `named_variable` takes the
global path: intern the name, then — keeping the source's evaluation
order — run `match_token(Equal)`, which consumes an `=` token if
present, *before* `can_assign` is consulted; emit `SetGlobal` after the
assigned expression when both held, and `GetGlobal` otherwise.
The infix rule for `*` is `binary`, which parses the right operand one
level above Factor and emits `Multiply`.  The final check also keeps the
source's order: `match_token(Equal)` runs — consuming an `=` if
present — before the precedence test that guards the "Invalid
assignment target." error. -/
def parseC : Nat → Bool → Prec → CParser → CParser
  | 0, _, _, s => s.errorAt "out of fuel"
  | fuel + 1, false, prec, s =>
    let s := s.advance
    let s :=
      match s.prev with
      | .ident name =>
        -- `variable` / `named_variable` with
        -- `can_assign = precedence <= Assignment`
        let (arg, s) := s.identifierConstant name
        let (matched, s) := s.matchToken .equal
        if matched ∧ prec.val ≤ Prec.assignment.val then
          (parseC fuel false .assignment s).emitBytes opSetGlobal arg
        else
          s.emitBytes opGetGlobal arg
      | _ => s.errorAt "Expect expression with prefix parser."
    let s := parseC fuel true prec s
    let (matched, s) := s.matchToken .equal
    if matched ∧ prec.val ≤ Prec.assignment.val then
      s.errorAt "Invalid assignment target."
    else s
  | fuel + 1, true, prec, s =>
    if prec.val ≤ s.current.precedence.val then
      let s := s.advance
      match s.prev with
      | .star => parseC fuel true prec
          ((parseC fuel false (CTok.star.precedence.nextLevel) s).emitByte opMultiply)
      | _ => s.errorAt "Expect expression with infix parser."
    else s

/-- `compiler.rs` `expression`. -/
def expressionC (fuel : Nat) (s : CParser) : CParser :=
  parseC fuel false .assignment s

/-- `compiler.rs` `expression_statement` (lines 494–501): compile the
expression, consume the `;` (reporting "Expect ';' after expression
statement expression." if it is missing), emit `Pop`. -/
def expressionStatement (fuel : Nat) (s : CParser) : CParser :=
  let s := expressionC fuel s
  let s := s.consume .semicolon "Expect ';' after expression statement expression."
  s.emitByte opPop

/-- Run the compiler fragment on a statement's token list: the first
token becomes `current` (as `advance_to_start` does) and the rest queue
behind it. -/
def compileStatementC (tokens : List CTok) : CParser :=
  let s0 : CParser :=
    { current := tokens.headD .eofTok
      prev := tokens.headD .eofTok
      rest := tokens.tail
      hadError := false
      panicMode := false
      errors := []
      code := []
      constants := [] }
  expressionStatement (tokens.length + 2) s0

/-! Shared helper lemmas about the stack and byte primitives. -/

/-- Pushing then reading: `peek 0` after the list gains its last element. -/
theorem peek_concat_zero (l : List Value) (v : Value) : peek (l ++ [v]) 0 = v := by
  unfold peek
  rw [List.length_append]
  simp only [List.length_singleton]
  rw [List.getD_append_right l [v] default (l.length + 1 - 1 - 0) (by omega)]
  simp

/-- `peek 1` over a stack ending in two pushed values reads the lower one. -/
theorem peek_concat_one (l : List Value) (a b : Value) : peek (l ++ [a, b]) 1 = a := by
  unfold peek
  have hlen : (l ++ [a, b]).length = l.length + 2 := by simp
  rw [hlen]
  have hidx : l.length + 2 - 1 - 1 = l.length := by omega
  rw [hidx]
  rw [List.getD_append_right l [a, b] default l.length (le_refl _)]
  simp

/-- `pop_stack` on a stack ending in `v` returns `v` and the rest. -/
theorem popStack_concat (l : List Value) (v : Value) : popStack (l ++ [v]) = (v, l) := by
  unfold popStack
  rw [List.length_append]
  simp only [List.length_singleton]
  rw [List.getD_append_right l [v] default (l.length + 1 - 1) (by omega)]
  simp [List.dropLast_concat]

/-- Big-endian byte recombination: `(h << 8) | l = h * 256 + l` for a low
byte `l < 256`. -/
theorem shiftLeft_or_eq_add (h l : Nat) (hl : l < 256) : (h <<< 8) ||| l = h * 256 + l := by
  have h1 : h <<< 8 = 2 ^ 8 * h := by
    rw [Nat.shiftLeft_eq]; ring
  have h256 : h * 256 = 2 ^ 8 * h := by ring
  rw [h1, h256]
  apply Nat.eq_of_testBit_eq
  intro i
  rw [Nat.testBit_lor]
  have hl' : l < 2 ^ 8 := by norm_num at hl ⊢; exact hl
  have hmain := Nat.testBit_mul_pow_two_add h hl' i
  rw [hmain]
  have hzero := Nat.testBit_mul_pow_two_add h (show 0 < 2 ^ 8 by norm_num) i
  rw [Nat.add_zero] at hzero
  rw [hzero]
  by_cases hi : i < 8
  · simp [hi, Nat.zero_testBit]
  · simp only [hi, if_neg, ite_false]
    have hpow : (2 : Nat) ^ 8 ≤ 2 ^ i :=
      Nat.pow_le_pow_right (show 0 < 2 by norm_num) (Nat.le_of_not_lt hi)
    have : l < 2 ^ i := lt_of_lt_of_le hl' hpow
    rw [Nat.testBit_lt_two_pow this]
    simp

/-- `peek 0` over a stack ending in two pushed values reads the top one. -/
theorem peek_pair_zero (l : List Value) (a b : Value) : peek (l ++ [a, b]) 0 = b := by
  rw [show l ++ [a, b] = (l ++ [a]) ++ [b] by simp]
  exact peek_concat_zero _ _

/-- `pop_stack` on a stack ending in two pushed values. -/
theorem popStack_pair (l : List Value) (a b : Value) :
    popStack (l ++ [a, b]) = (b, l ++ [a]) := by
  rw [show l ++ [a, b] = (l ++ [a]) ++ [b] by simp]
  exact popStack_concat _ _

/-- A patched 16-bit operand reads back as the patched value. -/
theorem readShort_bytes (j : Nat) (hj : j ≤ 65535) :
    ((j >>> 8) % 256) <<< 8 ||| (j % 256) = j := by
  have hdiv : j >>> 8 = j / 256 := by
    rw [Nat.shiftRight_eq_div_pow]
  have hlt : j / 256 < 256 := by omega
  rw [hdiv, Nat.mod_eq_of_lt hlt, shiftLeft_or_eq_add _ _ (Nat.mod_lt _ (by norm_num))]
  first
  | rfl
  | omega

/-! Claim theorems. -/

/-- Claim C1: the claim states that `SetLocal` overwrites
`stack[first_slot + slot]` with the value on top of the stack and leaves
the stack otherwise unchanged (same height, top value still on the
stack, no other slot modified).  The code does not do this: on the stack
`[closure, 1, 2]` with absolute slot 1 (a local holding 1, with the
assigned value 2 on top), the `SetLocal` arm pushes the old local and
stores that same old value back, so the stack grows to
`[closure, 1, 2, 1]`, the slot keeps its old value 1, and the claimed
result `[closure, 2, 2]` is not produced. -/
theorem setLocal_ignores_top_and_grows_stack :
    setLocalStep [Value.objClosure 0, Value.number 1, Value.number 2] 1
      = [Value.objClosure 0, Value.number 1, Value.number 2, Value.number 1] ∧
    setLocalSpec [Value.objClosure 0, Value.number 1, Value.number 2] 1
      = [Value.objClosure 0, Value.number 2, Value.number 2] ∧
    setLocalStep [Value.objClosure 0, Value.number 1, Value.number 2] 1
      ≠ setLocalSpec [Value.objClosure 0, Value.number 1, Value.number 2] 1 ∧
    (setLocalStep [Value.objClosure 0, Value.number 1, Value.number 2] 1).length
      = 3 + 1 := by
  decide

/-- Claim C2: the claim states that compiling and running any arithmetic
expression over number literals (unary minus, `+ - * /`, parentheses)
yields its standard precedence-respecting evaluation, for example
`print 1 + 2 * 3;` prints 7.  The example itself holds, but the general
claim fails on any expression whose unary minus feeds a binary operator:
the `Negate` arm pushes without popping its operand, so for
`print 2 * -3;` the compiled program `[2, 3, Negate, Multiply, Print]`
multiplies the stale un-negated 3 with -3 and prints -9, where the
specification's evaluation of `2 * (-3)` gives -6. -/
theorem negate_leaves_operand_breaking_arithmetic :
    compilePrintStmt [.num 1, .plus, .num 2, .star, .num 3]
      = ([.const (.number 1), .const (.number 2), .const (.number 3),
          .multiply, .add, .print], false) ∧
    runInstrs (compilePrintStmt [.num 1, .plus, .num 2, .star, .num 3]).1
        { stack := [], strings := [], output := [] }
      = .ok { stack := [], strings := [], output := [.number 7] } ∧
    evalA (.add (.num 1) (.mul (.num 2) (.num 3))) = 7 ∧
    compilePrintStmt [.num 2, .star, .minus, .num 3]
      = ([.const (.number 2), .const (.number 3), .negate, .multiply, .print], false) ∧
    runInstrs (compilePrintStmt [.num 2, .star, .minus, .num 3]).1
        { stack := [], strings := [], output := [] }
      = .ok { stack := [.number 2], strings := [], output := [.number (-9)] } ∧
    evalA (.mul (.num 2) (.neg (.num 3))) = -6 ∧
    (-9 : ℚ) ≠ (-6 : ℚ) := by
  refine ⟨rfl, ?_, by norm_num [evalA], rfl, ?_, by norm_num [evalA], by norm_num⟩ <;>
    simp [runInstrs, compilePrintStmt, expressionA, parseA, AParser.advance,
          AParser.current, AParser.emit, AParser.consume, ATok.precedence,
          Prec.nextLevel, Prec.val, List.foldlM, execInstr, binaryOp, peek,
          popStack, pushStack, concatenate, bind, Except.bind, pure, Except.pure] <;>
    norm_num

/-- Claim C5: the claim states that every garbage-collection run (in
particular the one before each allocation under stress mode) frees and
unlinks every unreachable heap object and clears the mark bit of every
survivor.  The code's collector does neither: with two allocated objects
of which only object 0 is reachable (it sits on the stack), a collection
only marks the roots — object 1 is neither freed nor unlinked, and the
surviving object 0 is left with its mark bit set rather than cleared;
the allocator-side collector does nothing at all. -/
theorem collect_garbage_never_sweeps :
    collectGarbage [false, false] [.objString 0] [] [] [] = [true, false] ∧
    (collectGarbage [false, false] [.objString 0] [] [] []).length = 2 ∧
    collectGarbageAllocator [false, false] = [false, false] := by
  decide

/-- Claim C8: the claim states that `interpret` always returns one of
Ok/CompileError/RuntimeError and never panics, and in particular that a
source ending in the middle of an identifier, number, or unterminated
string literal yields a reported error rather than a crash.  The scanner
contradicts this: `peek` unwraps `chars().nth(current)`, and the
identifier, number and string loops all call `peek` before checking for
the end of input, so the sources `ab`, `12` and `"ab` all panic
(modelled as `none`), while the same identifier followed by a delimiter
scans normally. -/
theorem scanner_panics_at_end_of_input :
    scanToken (Scanner.new "ab".toList) = none ∧
    scanToken (Scanner.new "12".toList) = none ∧
    scanToken (Scanner.new "\"ab".toList) = none ∧
    scanToken (Scanner.new "ab ".toList)
      = some (.ok { tokType := .identifier, lexeme := ['a', 'b'], line := 1 },
              { source := ['a', 'b', ' '], start := 0, current := 2, line := 1 }) :=
  ⟨rfl, rfl, rfl, rfl⟩

/-- Claim C9: the claim states that an `=` following a variable
expression at a parse precedence above Assignment — e.g. the statement
`a * b = c;` — is reported as the compile error "Invalid assignment
target.".  The code never reports that message here: `named_variable`
evaluates `match_token(Equal)` before consulting `can_assign`, so the
`=` after `b` is silently consumed, and compilation instead fails later
with "Expect ';' after expression statement expression." when `c` is
found in place of the statement's semicolon. -/
theorem invalid_assignment_target_not_reported :
    (compileStatementC [.ident "a", .star, .ident "b", .equal, .ident "c", .semicolon]).errors
      = ["Expect ';' after expression statement expression."] ∧
    "Invalid assignment target."
      ∉ (compileStatementC [.ident "a", .star, .ident "b", .equal,
          .ident "c", .semicolon]).errors ∧
    (compileStatementC [.ident "a", .star, .ident "b", .equal,
        .ident "c", .semicolon]).hadError = true := by
  decide

/-- Everything in a post-capture list was already there or is the new
node. -/
theorem captureWalk_mem (l : OpenUpvalues) (loc p : Nat) :
    ∀ x ∈ (captureWalk l loc p).2.1, x ∈ l ∨ x = (p, loc) := by
  induction l with
  | nil => simp [captureWalk]
  | cons u rest ih =>
    intro x hx
    by_cases h1 : loc < u.2
    · simp only [captureWalk, if_pos h1, List.mem_cons] at hx
      rcases hx with rfl | hx
      · exact Or.inl (List.mem_cons_self _ _)
      · rcases ih x hx with h | h
        · exact Or.inl (List.mem_cons_of_mem _ h)
        · exact Or.inr h
    · by_cases h2 : u.2 = loc
      · simp only [captureWalk, if_neg h1, if_pos h2] at hx
        exact Or.inl hx
      · simp only [captureWalk, if_neg h1, if_neg h2, List.mem_cons] at hx
        rcases hx with rfl | hx
        · exact Or.inr rfl
        · exact Or.inl (List.mem_cons.mpr hx)

/-- On a strictly descending list that already holds an upvalue for
`loc`, the capture walk returns that very node and changes nothing. -/
theorem captureWalk_found (l : OpenUpvalues) (loc p p0 : Nat)
    (hs : SortedDesc l) (hmem : (p0, loc) ∈ l) :
    captureWalk l loc p = (p0, l, false) := by
  induction l with
  | nil => cases hmem
  | cons u rest ih =>
    rw [SortedDesc, List.pairwise_cons] at hs
    obtain ⟨hhead, htail⟩ := hs
    rcases List.mem_cons.mp hmem with rfl | hmem'
    · simp [captureWalk]
    · have hlt : loc < u.2 := hhead _ hmem'
      have hres := ih htail hmem'
      simp [captureWalk, hlt, hres]

/-- With no upvalue at `loc` in the list, the capture walk allocates: it
returns the fresh pointer, reports an insertion, and the resulting list
holds exactly the old nodes plus `(p, loc)`. -/
theorem captureWalk_not_found (l : OpenUpvalues) (loc p : Nat)
    (hnone : ∀ q, (q, loc) ∉ l) :
    (captureWalk l loc p).1 = p ∧ (captureWalk l loc p).2.2 = true ∧
    ∀ x, x ∈ (captureWalk l loc p).2.1 ↔ x ∈ l ∨ x = (p, loc) := by
  induction l with
  | nil => simp [captureWalk]
  | cons u rest ih =>
    have hu2 : u.2 ≠ loc := by
      intro h
      exact hnone u.1 (by
        have : (u.1, loc) = u := by
          rw [← h]
        rw [this]
        exact List.mem_cons_self _ _)
    by_cases h1 : loc < u.2
    · have hrest : ∀ q, (q, loc) ∉ rest := fun q hq => hnone q (List.mem_cons_of_mem _ hq)
      obtain ⟨ih1, ih2, ih3⟩ := ih hrest
      refine ⟨by simp [captureWalk, h1, ih1], by simp [captureWalk, h1, ih2], ?_⟩
      intro x
      simp only [captureWalk, if_pos h1, List.mem_cons, ih3]
      tauto
    · refine ⟨by simp [captureWalk, h1, hu2], by simp [captureWalk, h1, hu2], ?_⟩
      intro x
      simp only [captureWalk, if_neg h1, if_neg hu2, List.mem_cons]
      tauto

/-- The capture walk preserves the strictly-descending-location
invariant. -/
theorem captureWalk_sorted (l : OpenUpvalues) (loc p : Nat) (hs : SortedDesc l) :
    SortedDesc (captureWalk l loc p).2.1 := by
  induction l with
  | nil => simp [captureWalk, SortedDesc]
  | cons u rest ih =>
    rw [SortedDesc, List.pairwise_cons] at hs
    obtain ⟨hhead, htail⟩ := hs
    by_cases h1 : loc < u.2
    · have hres := ih htail
      rw [SortedDesc] at hres ⊢
      simp only [captureWalk, if_pos h1, List.pairwise_cons]
      refine ⟨?_, hres⟩
      intro b hb
      rcases captureWalk_mem rest loc p b hb with h | h
      · exact hhead b h
      · rw [h]
        exact h1
    · by_cases h2 : u.2 = loc
      · rw [SortedDesc]
        simp only [captureWalk, if_neg h1, if_pos h2, List.pairwise_cons]
        exact ⟨hhead, htail⟩
      · have hu2lt : u.2 < loc := by omega
        rw [SortedDesc]
        simp only [captureWalk, if_neg h1, if_neg h2, List.pairwise_cons]
        refine ⟨?_, hhead, htail⟩
        intro b hb
        rcases List.mem_cons.mp hb with rfl | hb'
        · exact hu2lt
        · exact lt_trans (hhead b hb') hu2lt

/-- On a strictly descending list, popping while the head location is at
least `L` removes exactly the entries with location ≥ `L`. -/
theorem closeUpvalues_filter (l : OpenUpvalues) (L : Nat) (hs : SortedDesc l) :
    closeUpvalues l L = l.filter (fun u => decide (u.2 < L)) := by
  induction l with
  | nil => rfl
  | cons u rest ih =>
    rw [SortedDesc, List.pairwise_cons] at hs
    obtain ⟨hhead, htail⟩ := hs
    by_cases h : u.2 < L
    · have hkeep : rest.filter (fun u => decide (u.2 < L)) = rest :=
        List.filter_eq_self.mpr (fun b hb => by
          have := hhead b hb
          simp
          omega)
      simp [closeUpvalues, h, hkeep]
    · simp [closeUpvalues, h, ih htail]

/-- Claim C3: on an open-upvalue list sorted by location in strictly
descending order, `capture_upvalue(loc)` returns the existing node when
one with location `loc` is present (leaving the list untouched, so two
closures capturing the same slot share one upvalue object); otherwise it
splices in exactly one fresh node `(p, loc)`; the list stays strictly
descending after every capture; and `close_upvalues(L)` removes exactly
the entries with location ≥ `L`, also preserving the order. -/
theorem upvalue_list_invariants (l : OpenUpvalues) (loc p p0 L : Nat)
    (hs : SortedDesc l) :
    ((p0, loc) ∈ l → captureWalk l loc p = (p0, l, false)) ∧
    ((∀ q, (q, loc) ∉ l) →
      (captureWalk l loc p).1 = p ∧ (captureWalk l loc p).2.2 = true ∧
      ∀ x, x ∈ (captureWalk l loc p).2.1 ↔ x ∈ l ∨ x = (p, loc)) ∧
    SortedDesc (captureWalk l loc p).2.1 ∧
    closeUpvalues l L = l.filter (fun u => decide (u.2 < L)) ∧
    SortedDesc (closeUpvalues l L) := by
  refine ⟨fun h => captureWalk_found l loc p p0 hs h,
          fun h => captureWalk_not_found l loc p h,
          captureWalk_sorted l loc p hs,
          closeUpvalues_filter l L hs,
          ?_⟩
  rw [closeUpvalues_filter l L hs]
  exact List.Pairwise.filter _ hs

/-- Witness for C3: on the sorted list `[(10,7), (11,4), (12,2)]`,
capturing location 4 returns the existing upvalue 11 unchanged, and
closing with threshold 4 pops exactly the first two entries. -/
theorem upvalue_list_invariants_witness :
    SortedDesc [(10, 7), (11, 4), (12, 2)] ∧
    captureWalk [(10, 7), (11, 4), (12, 2)] 4 99
      = (11, [(10, 7), (11, 4), (12, 2)], false) ∧
    closeUpvalues [(10, 7), (11, 4), (12, 2)] 4
      = List.filter (fun u => decide (u.2 < 4)) [(10, 7), (11, 4), (12, 2)] :=
  ⟨by decide,
   (upvalue_list_invariants [(10, 7), (11, 4), (12, 2)] 4 99 11 4 (by decide)).1
     (by decide),
   (upvalue_list_invariants [(10, 7), (11, 4), (12, 2)] 4 99 11 4 (by decide)).2.2.2.1⟩

/-- Claim C4: for `Call argc` with callee `peek(argc)`: a closure whose
function arity differs from `argc` is a runtime error; with 64 frames
already on the call stack, the runtime error is "Stack overflow.";
otherwise a frame with `first_slot = stack_top - argc - 1` and `ip = 0`
is pushed.  A native callee pops the `argc` arguments plus the native
itself and pushes the native's single result.  Any other callee raises
"Can only call functions and classes.". -/
theorem callValue_protocol (vm : CallVM) (p argc arity : Nat) (v : Value)
    (harity : vm.closureArity.getD p 0 = arity) :
    (arity ≠ argc →
      callValue vm (.objClosure p) argc =
        .error s!"Expected {arity} arguments but got {argc}") ∧
    (arity = argc → vm.frames.length = framesMax →
      callValue vm (.objClosure p) argc = .error "Stack overflow.") ∧
    (arity = argc → vm.frames.length ≠ framesMax →
      callValue vm (.objClosure p) argc =
        .ok { vm with frames := vm.frames ++
              [{ closure := p, ip := 0, firstSlot := vm.stack.length - argc - 1 }] }) ∧
    (callValue vm (.objNative p) argc =
      .ok { vm with stack := vm.stack.take (vm.stack.length - (argc + 1)) ++
            [.number vm.clockValue] }) ∧
    ((∀ q, v ≠ .objClosure q) → (∀ q, v ≠ .objNative q) →
      callValue vm v argc = .error "Can only call functions and classes.") := by
  have harity' : vm.closureArity[p]?.getD 0 = arity := by
    rw [← List.getD_eq_getElem?_getD]
    exact harity
  refine ⟨?_, ?_, ?_, ?_, ?_⟩
  · intro hne
    simp [callValue, call, harity', Ne.symm hne]
  · intro heq hfull
    simp [callValue, call, harity', heq, hfull]
  · intro heq hne
    simp [callValue, call, harity', heq, hne]
  · simp [callValue, callNative, pushStack]
  · intro h1 h2
    cases v
    case objClosure q => exact absurd rfl (h1 q)
    case objNative q => exact absurd rfl (h2 q)
    all_goals rfl

/-- Witness for C4: a VM with one unary closure and one argument on the
stack accepts the call and pushes the frame
`{closure := 0, ip := 0, first_slot := 0}`. -/
theorem callValue_protocol_witness :
    callValue { stack := [Value.objClosure 0, Value.number 5], frames := [],
                closureArity := [1], clockValue := 0 } (.objClosure 0) 1
      = .ok { stack := [Value.objClosure 0, Value.number 5],
              frames := [{ closure := 0, ip := 0, firstSlot := 0 }],
              closureArity := [1], clockValue := 0 } := by
  have h := (callValue_protocol
      { stack := [Value.objClosure 0, Value.number 5], frames := [],
        closureArity := [1], clockValue := 0 } 0 1 1 Value.nil (by decide)).2.2.1
      (by decide) (by decide)
  simpa using h

/-- Claim C6: for `Add` over a stack ending in `va, vb` (with `vb` on
top): two strings are replaced by a pointer to a freshly allocated heap
string holding their concatenation; two numbers are replaced by their
sum; in every other case — for example `1 + "a"` — the runtime error
"Operands must be numbers." is raised, `interpret` returns RuntimeError,
and file mode exits with code 70. -/
theorem add_instruction_cases (st : ExecState) (rest : List Value) (va vb : Value)
    (x y : ℚ) (pa pb : Nat) (hstack : st.stack = rest ++ [va, vb]) :
    (va = .objString pa → vb = .objString pb →
      execInstr st .add =
        .ok { st with
              stack := rest ++ [.objString st.strings.length]
              strings := st.strings ++
                [st.strings.getD pa "" ++ st.strings.getD pb ""] }) ∧
    (va = .number x → vb = .number y →
      execInstr st .add = .ok { st with stack := rest ++ [.number (x + y)] }) ∧
    ((∀ a b, ¬(va = .objString a ∧ vb = .objString b)) →
     (∀ a b, ¬(va = .number a ∧ vb = .number b)) →
      execInstr st .add = .error "Operands must be numbers." ∧
      interpretOutcome (execInstr st .add) = .runtimeError ∧
      runFileExitCode .runtimeError = some 70) := by
  refine ⟨?_, ?_, ?_⟩
  · rintro rfl rfl
    simp [execInstr, concatenate, hstack, peek_pair_zero, peek_concat_one,
          popStack_pair, popStack_concat, pushStack]
  · rintro rfl rfl
    simp [execInstr, binaryOp, hstack, peek_pair_zero, peek_concat_one,
          popStack_pair, popStack_concat, pushStack]
  · intro hnos hnon
    have herr : execInstr st .add = .error "Operands must be numbers." := by
      cases va <;> cases vb <;>
        first
        | exact absurd ⟨rfl, rfl⟩ (hnos _ _)
        | exact absurd ⟨rfl, rfl⟩ (hnon _ _)
        | simp [execInstr, binaryOp, hstack, peek_pair_zero, peek_concat_one]
    exact ⟨herr, by rw [herr]; rfl, rfl⟩

/-- Witness for C6: running `Add` on the stack of `1 + "a"` (number below
a string pointer) raises "Operands must be numbers.", and RuntimeError
exits with 70 in file mode. -/
theorem add_instruction_cases_witness :
    execInstr { stack := [Value.number 1, Value.objString 0], strings := ["a"],
                output := [] } .add
      = .error "Operands must be numbers." ∧
    runFileExitCode .runtimeError = some 70 := by
  have h := (add_instruction_cases
      { stack := [Value.number 1, Value.objString 0], strings := ["a"], output := [] }
      [] (Value.number 1) (Value.objString 0) 0 0 0 0 rfl).2.2
      (by rintro a b ⟨⟨⟩, -⟩) (by rintro a b ⟨-, ⟨⟩⟩)
  exact ⟨h.1, h.2.2⟩

/-- Reading the two bytes written by a patch. -/
theorem getD_set_pair (l : List Nat) (p hi lo : Nat) (h : p + 1 < l.length) :
    ((l.set p hi).set (p + 1) lo).getD p 0 = hi ∧
    ((l.set p hi).set (p + 1) lo).getD (p + 1) 0 = lo := by
  constructor
  · rw [List.getD_eq_getElem?_getD, List.getElem?_set_ne (by omega),
        List.getElem?_set_self (by omega)]
    rfl
  · rw [List.getD_eq_getElem?_getD,
        List.getElem?_set_self (by rw [List.length_set]; omega)]
    rfl

/-- Claim C7: jump encoding round-trips with jump execution.  A forward
jump emitted by `emit_jump` leaves its two `0xff` placeholder bytes at
position `p`; patching when the chunk has grown to length `n` writes the
16-bit big-endian operand `n - p - 2`, and executing the `Jump` (or a
taken `JumpIfFalse`) then sets `ip` to exactly `n`.  A backward jump
emitted by `emit_loop(loop_start)` writes a big-endian operand such that
executing `Loop` sets `ip` to exactly `loop_start`.  In both directions
an operand beyond 65535 is reported as a compile error. -/
theorem jump_encoding_roundtrip (code extra : List Nat) (opcode loopStart : Nat)
    (top : Value) :
    (extra.length ≤ 65535 →
      (patchJump ((emitJump code opcode).1 ++ extra) (emitJump code opcode).2).2
        = false ∧
      execJump (patchJump ((emitJump code opcode).1 ++ extra) (emitJump code opcode).2).1
          (emitJump code opcode).2
        = ((emitJump code opcode).1 ++ extra).length ∧
      (top.isFalsey = true →
        execJumpIfFalse
            (patchJump ((emitJump code opcode).1 ++ extra) (emitJump code opcode).2).1
            (emitJump code opcode).2 top
          = ((emitJump code opcode).1 ++ extra).length)) ∧
    (65535 < extra.length →
      (patchJump ((emitJump code opcode).1 ++ extra) (emitJump code opcode).2).2
        = true) ∧
    (loopStart ≤ code.length → code.length + 3 - loopStart ≤ 65535 →
      (emitLoop code loopStart).2 = false ∧
      execLoop (emitLoop code loopStart).1 (code.length + 1) = loopStart) ∧
    (65535 < code.length + 3 - loopStart → (emitLoop code loopStart).2 = true) := by
  have hp : (emitJump code opcode).2 = code.length + 1 := by
    simp [emitJump]
  have hc1 : (emitJump code opcode).1 = code ++ [opcode, 0xff, 0xff] := rfl
  have hlen2 : ((emitJump code opcode).1 ++ extra).length
      = code.length + 3 + extra.length := by
    simp [emitJump]
    omega
  have hjump : ((emitJump code opcode).1 ++ extra).length
      - (emitJump code opcode).2 - 2 = extra.length := by
    rw [hlen2, hp]
    omega
  refine ⟨?_, ?_, ?_, ?_⟩
  · intro hle
    have hflag : (patchJump ((emitJump code opcode).1 ++ extra)
        (emitJump code opcode).2).2 = false := by
      simp only [patchJump, hjump]
      rw [if_pos hle]
    have hlist : (patchJump ((emitJump code opcode).1 ++ extra)
        (emitJump code opcode).2).1
        = (((emitJump code opcode).1 ++ extra).set (emitJump code opcode).2
            ((extra.length >>> 8) % 256)).set ((emitJump code opcode).2 + 1)
            (extra.length % 256) := by
      simp only [patchJump, hjump]
      rw [if_pos hle]
    have hbound : (emitJump code opcode).2 + 1
        < ((emitJump code opcode).1 ++ extra).length := by
      rw [hp, hlen2]
      omega
    obtain ⟨hhi, hlo⟩ := getD_set_pair ((emitJump code opcode).1 ++ extra)
      (emitJump code opcode).2 ((extra.length >>> 8) % 256) (extra.length % 256) hbound
    have hread : readShort (patchJump ((emitJump code opcode).1 ++ extra)
          (emitJump code opcode).2).1 (emitJump code opcode).2
        = (extra.length, (emitJump code opcode).2 + 2) := by
      rw [hlist] at *
      simp only [readShort, readByte]
      rw [hhi, hlo, readShort_bytes extra.length hle]
    refine ⟨hflag, ?_, ?_⟩
    · rw [execJump, hread]
      simp only [hp, hlen2]
    · intro htop
      rw [execJumpIfFalse, hread]
      simp only [htop, if_pos, hp, hlen2]
  · intro hgt
    simp only [patchJump, hjump]
    rw [if_neg (by omega)]
  · intro hls hle
    have hofs : ((code ++ [opLoop]).length) - loopStart + 2
        = code.length + 3 - loopStart := by
      simp
      omega
    have hflag : (emitLoop code loopStart).2 = false := by
      simp only [emitLoop, hofs]
      simp
      omega
    refine ⟨hflag, ?_⟩
    have hmod : (code.length + 3 - loopStart) % 65536 = code.length + 3 - loopStart :=
      Nat.mod_eq_of_lt (by omega)
    have hc4 : (emitLoop code loopStart).1
        = code ++ [opLoop] ++ [(((code.length + 3 - loopStart) % 65536) >>> 8) % 256,
            (code.length + 3 - loopStart) % 256] := by
      simp only [emitLoop, hofs]
    have hhi : (emitLoop code loopStart).1.getD (code.length + 1) 0
        = (((code.length + 3 - loopStart) % 65536) >>> 8) % 256 := by
      rw [hc4, List.append_assoc,
          List.getD_append_right code _ 0 (code.length + 1) (by omega)]
      simp
    have hlo : (emitLoop code loopStart).1.getD (code.length + 2) 0
        = (code.length + 3 - loopStart) % 256 := by
      rw [hc4, List.append_assoc,
          List.getD_append_right code _ 0 (code.length + 2) (by omega)]
      simp
    simp only [execLoop, readShort, readByte]
    rw [hhi, hlo, hmod, readShort_bytes (code.length + 3 - loopStart) hle]
    omega
  · intro hgt
    have hofs : ((code ++ [opLoop]).length) - loopStart + 2
        = code.length + 1 - loopStart + 2 := by
      simp
    simp only [emitLoop, hofs]
    simp
    omega

/-- Witness for C7: a jump emitted into an empty chunk, patched after one
more byte, lands exactly at the patch-time code length, and a loop back
to offset 0 lands at 0. -/
theorem jump_encoding_roundtrip_witness :
    ([15] : List Nat).length ≤ 65535 ∧
    execJump (patchJump ((emitJump [] opJump).1 ++ [15]) (emitJump [] opJump).2).1
        (emitJump [] opJump).2
      = ((emitJump [] opJump).1 ++ [15]).length ∧
    execLoop (emitLoop [] 0).1 (List.length ([] : List Nat) + 1) = 0 :=
  ⟨by decide,
   ((jump_encoding_roundtrip [] [15] opJump 0 Value.nil).1 (by decide)).2.1,
   ((jump_encoding_roundtrip [] [15] opJump 0 Value.nil).2.2.1 (by decide) (by decide)).2⟩

/-- Claim C10 (counterexample): the claim states that printing a function
named `f` writes `<fn f>`.  The `Display` implementation for
`ObjFunction` prints the bare name, so the displayed string is `f`, not
`<fn f>`. -/
theorem function_display_is_bare_name :
    displayObjFunction (some "f") = "f" ∧
    displayObjFunction (some "f") ≠ "<fn f>" := by
  decide

/-- Claim C10 (amended): executing `Print` writes, for a function or
closure named `f`, the bare name `f` (not `<fn f>`); for the top-level
script function, `<script>`; for a native, `<native fn>`; for nil,
`nil`; and for booleans, `true` or `false` — and `Print` pops the top
value and writes its display. -/
theorem print_displays_values (numFmt : ℚ → String) (strHeap : List String)
    (fnNames : List (Option String)) (closureFns : List Nat)
    (stack : List Value) (v : Value) :
    displayObjFunction (some "f") = "f" ∧
    displayObjFunction none = "<script>" ∧
    displayObjNative = "<native fn>" ∧
    displayValue numFmt strHeap fnNames closureFns .nil = "nil" ∧
    displayValue numFmt strHeap fnNames closureFns (.bool true) = "true" ∧
    displayValue numFmt strHeap fnNames closureFns (.bool false) = "false" ∧
    displayValue numFmt ["f"] [some "f"] [] (.objFunction 0) = "f" ∧
    displayValue numFmt ["f"] [some "f"] [0] (.objClosure 0) = "f" ∧
    execPrint (stack ++ [v]) (displayValue numFmt strHeap fnNames closureFns)
      = (displayValue numFmt strHeap fnNames closureFns v, stack) := by
  refine ⟨rfl, rfl, rfl, rfl, rfl, rfl, rfl, rfl, ?_⟩
  unfold execPrint
  rw [popStack_concat]

end RLox
